import Mathlib

/-!
Shallow embedding of the tricklezip compression engine (src/lib.rs,
src/deflate.rs, src/lz77.rs, src/huffman.rs, src/bitstream.rs).

Byte slices are modelled as `List Nat` (each element the value of a `u8`;
where Rust performs a cast or mask, the embedding applies the matching
`% 256` or bitwise mask).  Machine `u32` arithmetic is modelled on `Nat`
with explicit `% 2 ^ 32`.  A Rust method taking `&mut self` and returning
`Result<T, TrickleError>` becomes a Lean function returning
`Except TrickleError T × State`, so the state after an error path is
visible.  A Rust arithmetic overflow that panics under debug assertions
(shift by an amount not below the bit width) is modelled as `Option.none`
wrapping the whole call.
-/

namespace TrickleZip

/-- Error type, from TrickleError in src/lib.rs. -/
inductive TrickleError where
  | insufficientInput
  | insufficientOutput
  | invalidData
  | needsMoreWork
  | timeoutExceeded
deriving DecidableEq

/-- LZ77 token, from Token in src/lz77.rs.  The constructor for the Rust
variant Match is called matchTok because match is a Lean keyword. -/
inductive Token where
  | literal (b : Nat)
  | matchTok (length distance : Nat)
deriving DecidableEq

/-- Rust u32 shift-left.  A shift amount of 32 or more is an arithmetic
overflow (a panic when overflow checks are on; in release builds the
amount would be masked), modelled as none.  Otherwise the result wraps
modulo 2 ^ 32, matching the bits a u32 keeps. -/
def u32shl (x n : Nat) : Option Nat :=
  if n ≥ 32 then none else some ((x <<< n) % 2 ^ 32)

/-- Bit packer state, from BitWriter in src/bitstream.rs. -/
structure BitWriter where
  bit_buffer : Nat
  bit_count : Nat
  output : List Nat
deriving DecidableEq

/-- BitWriter::new. -/
def BitWriter.new : BitWriter := ⟨0, 0, []⟩

/-- The while loop inside BitWriter::write_bits: while bit_count ≥ 8,
push the low byte of the buffer and shift it right by 8.  The loop runs
at most cnt / 8 times, so cnt itself is always enough fuel: whenever the
guard holds the remaining fuel is positive. -/
def flushLoopF : Nat → Nat → Nat → List Nat → Nat × Nat × List Nat
  | 0, buf, cnt, out => (buf, cnt, out)
  | fuel + 1, buf, cnt, out =>
    if cnt ≥ 8 then flushLoopF fuel (buf / 256) (cnt - 8) (out ++ [buf % 256])
    else (buf, cnt, out)

/-- Entry point for the flush loop, with fuel cnt (see flushLoopF). -/
def flushLoop (buf cnt : Nat) (out : List Nat) : Nat × Nat × List Nat :=
  flushLoopF cnt buf cnt out

/-- BitWriter::write_bits from src/bitstream.rs.  Mirrors the source:
reject num_bits > 32, build the mask (1 << num_bits) - 1, fold the masked
value into the accumulator at the current bit offset, flush complete
bytes.  Both shifts go through u32shl, so the overflowing shift
1u32 << 32 at num_bits = 32 yields none (a panic in the source). -/
def BitWriter.write_bits (w : BitWriter) (value num_bits : Nat) :
    Option (Except TrickleError Unit × BitWriter) :=
  if num_bits > 32 then some (.error .invalidData, w)
  else
    match u32shl 1 num_bits with
    | none => none
    | some p =>
      match u32shl ((value % 2 ^ 32) &&& (p - 1)) w.bit_count with
      | none => none
      | some add =>
        let r := flushLoop (w.bit_buffer ||| add) (w.bit_count + num_bits) w.output
        some (.ok (), ⟨r.1, r.2.1, r.2.2⟩)

/-- BitWriter::write_byte: write one byte as 8 bits. -/
def BitWriter.write_byte (w : BitWriter) (byte : Nat) :
    Option (Except TrickleError Unit × BitWriter) :=
  w.write_bits byte 8

/-- BitWriter::flush: pad any pending bits to a whole byte and emit it. -/
def BitWriter.flush (w : BitWriter) : Except TrickleError Unit × BitWriter :=
  if w.bit_count > 0 then (.ok (), ⟨0, 0, w.output ++ [w.bit_buffer % 256]⟩)
  else (.ok (), w)

/-- The for loop in BitWriter::write_to_buffer: write each data byte via
write_byte, propagating errors as the ? operator does. -/
def writeBytesLoop (w : BitWriter) : List Nat → Option (Except TrickleError Unit × BitWriter)
  | [] => some (.ok (), w)
  | b :: rest =>
    match w.write_byte b with
    | none => none
    | some (.ok _, w1) => writeBytesLoop w1 rest
    | some (.error e, w1) => some (.error e, w1)

/-- BitWriter::write_to_buffer from src/bitstream.rs: write the data
bytes, flush, fail with InsufficientOutput when the accumulated output
exceeds the caller buffer capacity (the accumulated output is retained in
that case, exactly as in the source), otherwise hand the accumulated
bytes out and clear the internal buffer.  The ok value is the list of
bytes copied into the caller buffer; its length is the usize the source
returns. -/
def BitWriter.write_to_buffer (w : BitWriter) (data : List Nat) (cap : Nat) :
    Option (Except TrickleError (List Nat) × BitWriter) :=
  match writeBytesLoop w data with
  | none => none
  | some (.error e, w1) => some (.error e, w1)
  | some (.ok _, w1) =>
    match w1.flush with
    | (.error e, w2) => some (.error e, w2)
    | (.ok _, w2) =>
      if w2.output.length > cap then some (.error .insufficientOutput, w2)
      else some (.ok w2.output, { w2 with output := [] })

/-- Match finder state, from Lz77Encoder in src/lz77.rs. -/
structure Lz77Encoder where
  window_size : Nat
  max_lazy_match : Nat
  max_chain_length : Nat
  window : List Nat
  position : Nat
deriving DecidableEq

/-- Lz77Encoder::new. -/
def Lz77Encoder.new (window_size max_lazy_match max_chain_length : Nat) : Lz77Encoder :=
  ⟨window_size, max_lazy_match, max_chain_length, [], 0⟩

/-- Lz77Encoder::encode from src/lz77.rs: the while loop pushes one
Literal token per input byte (the source emits no Match tokens), then the
sliding window is extended with the input and, when it exceeds
window_size, the oldest surplus bytes are drained from the front. -/
def Lz77Encoder.encode (e : Lz77Encoder) (input : List Nat) :
    Except TrickleError (List Token) × Lz77Encoder :=
  let tokens := input.map Token.literal
  let w := e.window ++ input
  let w2 := if w.length > e.window_size then w.drop (w.length - e.window_size) else w
  (.ok tokens, { e with window := w2 })

/-- Entropy coder state, from HuffmanCoder in src/huffman.rs (the source
struct has no fields). -/
structure HuffmanCoder where
deriving DecidableEq

/-- HuffmanCoder::new. -/
def HuffmanCoder.new : HuffmanCoder := ⟨⟩

/-- The byte stream produced by the for loop in HuffmanCoder::encode:
a Literal pushes its byte, a Match pushes the 0xff marker then length and
distance each cast to u8 (hence % 256). -/
def huffmanBytes : List Token → List Nat
  | [] => []
  | Token.literal b :: rest => b :: huffmanBytes rest
  | Token.matchTok len dist :: rest => 255 :: len % 256 :: dist % 256 :: huffmanBytes rest

/-- HuffmanCoder::encode from src/huffman.rs (takes self immutably and
never fails). -/
def HuffmanCoder.encode (_h : HuffmanCoder) (tokens : List Token) :
    Except TrickleError (List Nat) :=
  .ok (huffmanBytes tokens)

/-- Configuration, from CompressionConfig in src/lib.rs.  The level field
holds the u8 inside CompressionLevel. -/
structure CompressionConfig where
  level : Nat
  window_size : Nat
  max_lazy_match : Nat
  max_chain_length : Nat
deriving DecidableEq

/-- Default::default for CompressionConfig (level BALANCED = 6). -/
def CompressionConfig.default : CompressionConfig := ⟨6, 32768, 258, 256⟩

/-- Compression statistics, from CompressionStats in src/lib.rs.  The
compression_ratio field of the source is an f32 derived from the two
counters and is not modelled. -/
structure CompressionStats where
  bytes_processed : Nat
  bytes_output : Nat
deriving DecidableEq

/-- Pipeline state machine, from DeflateState in src/deflate.rs. -/
structure DeflateState where
  lz77 : Lz77Encoder
  huffman : HuffmanCoder
  bit_writer : BitWriter
  bytes_processed : Nat
  bytes_output : Nat
  finished : Bool
deriving DecidableEq

/-- DeflateState::new. -/
def DeflateState.new (config : CompressionConfig) : DeflateState :=
  ⟨Lz77Encoder.new config.window_size config.max_lazy_match config.max_chain_length,
   HuffmanCoder.new, BitWriter.new, 0, 0, false⟩

/-- DeflateState::compress_chunk from src/deflate.rs.  If finished,
return the terminal no-op result.  Otherwise run the LZ77 encoder (and
only then add input.len() to bytes_processed, as the source does), run
the Huffman coder, write through the bit writer (adding the written count
to bytes_output), set finished when the finish flag is on, and return
(input.len(), written, finished).  The written bytes are returned as a
list; the usize of the source is its length.  Error paths return the
state as already mutated, matching the ? operator in the source. -/
def DeflateState.compress_chunk (s : DeflateState) (input : List Nat) (cap : Nat)
    (finish : Bool) :
    Option (Except TrickleError (Nat × List Nat × Bool) × DeflateState) :=
  if s.finished then some (.ok (0, [], true), s)
  else
    match s.lz77.encode input with
    | (.error e, lz) => some (.error e, { s with lz77 := lz })
    | (.ok tokens, lz) =>
      let s1 := { s with lz77 := lz, bytes_processed := s.bytes_processed + input.length }
      match s1.huffman.encode tokens with
      | .error e => some (.error e, s1)
      | .ok compressed =>
        match s1.bit_writer.write_to_buffer compressed cap with
        | none => none
        | some (.error e, bw) => some (.error e, { s1 with bit_writer := bw })
        | some (.ok written, bw) =>
          let s2 := { s1 with bit_writer := bw,
                              bytes_output := s1.bytes_output + written.length }
          let s3 := if finish then { s2 with finished := true } else s2
          some (.ok (input.length, written, s3.finished), s3)

/-- DeflateState::stats. -/
def DeflateState.stats (s : DeflateState) : CompressionStats :=
  ⟨s.bytes_processed, s.bytes_output⟩

/-- Decompressor state, from InflateState in src/deflate.rs. -/
structure InflateState where
  finished : Bool
deriving DecidableEq

/-- InflateState::new. -/
def InflateState.new : InflateState := ⟨false⟩

/-- InflateState::decompress_chunk from src/deflate.rs: empty input sets
finished and returns (0, 0, true); otherwise copy
min(input.len(), output.len()) bytes to the output and report finished
exactly when everything was copied. -/
def InflateState.decompress_chunk (s : InflateState) (input : List Nat) (cap : Nat) :
    Except TrickleError (Nat × List Nat × Bool) × InflateState :=
  if input.isEmpty then (.ok (0, [], true), { s with finished := true })
  else
    let copy_len := min input.length cap
    (.ok (copy_len, input.take copy_len, copy_len == input.length), s)

/-- Facade, from TrickleCompressor in src/lib.rs. -/
structure TrickleCompressor where
  config : CompressionConfig
  state : DeflateState
deriving DecidableEq

/-- TrickleCompressor::with_config. -/
def TrickleCompressor.with_config (config : CompressionConfig) : TrickleCompressor :=
  ⟨config, DeflateState.new config⟩

/-- TrickleCompressor::new (default configuration). -/
def TrickleCompressor.new : TrickleCompressor :=
  TrickleCompressor.with_config CompressionConfig.default

/-- TrickleCompressor::compress_trickle: delegate to compress_chunk. -/
def TrickleCompressor.compress_trickle (c : TrickleCompressor) (input : List Nat)
    (cap : Nat) (finish : Bool) :
    Option (Except TrickleError (Nat × List Nat × Bool) × TrickleCompressor) :=
  match c.state.compress_chunk input cap finish with
  | none => none
  | some (r, st) => some (r, { c with state := st })

/-- TrickleCompressor::stats. -/
def TrickleCompressor.stats (c : TrickleCompressor) : CompressionStats :=
  c.state.stats

/-- The retry loop of TrickleCompressor::compress_timed from src/lib.rs.
The host clock (std Instant) is injected as an abstract elapsed-time
query per loop iteration, as the spec prescribes for testing; a Duration
is a Nat (elapsed values and the limit in the same unit, both
nonnegative, as Rust Durations are).  Each iteration first checks
elapsed ≥ time_limit and returns TimeoutExceeded, else calls
compress_trickle, retrying only on NeedsMoreWork.  The fuel only bounds
the NeedsMoreWork retries, which the compression path never produces. -/
def compressTimedLoop : Nat → TrickleCompressor → List Nat → Nat → Bool → (Nat → Nat) →
    Nat → Nat → Option (Except TrickleError (Nat × List Nat × Bool) × TrickleCompressor)
  | 0, _, _, _, _, _, _, _ => none
  | fuel + 1, comp, input, cap, finish, elapsed, time_limit, iter =>
    if elapsed iter ≥ time_limit then some (.error .timeoutExceeded, comp)
    else
      match comp.compress_trickle input cap finish with
      | none => none
      | some (.ok r, comp1) => some (.ok r, comp1)
      | some (.error .needsMoreWork, comp1) =>
        compressTimedLoop fuel comp1 input cap finish elapsed time_limit (iter + 1)
      | some (.error e, comp1) => some (.error e, comp1)

/-- TrickleCompressor::compress_timed (see compressTimedLoop). -/
def TrickleCompressor.compress_timed (comp : TrickleCompressor) (input : List Nat)
    (cap : Nat) (finish : Bool) (elapsed : Nat → Nat) (time_limit : Nat) :
    Option (Except TrickleError (Nat × List Nat × Bool) × TrickleCompressor) :=
  compressTimedLoop (input.length + 2) comp input cap finish elapsed time_limit 0

/-- The loop of the one-shot compress function in src/lib.rs: call
compress_trickle on the remaining input with the remaining output
capacity and finish = true, accumulate consumed and written, stop when
finished, and fail with InsufficientOutput when the output buffer is
full but compression is not finished.  The accumulated written bytes
stand for output[..total_written]; the usize the source returns is their
length.  Because every call passes finish = true, a successful first
iteration already reports finished, so the fuel (chosen as
input.len() + 2 by the wrapper) is never exhausted on any path the
theorems traverse. -/
def compressLoop : Nat → TrickleCompressor → List Nat → Nat → Nat → List Nat →
    Option (Except TrickleError (List Nat))
  | 0, _, _, _, _, _ => none
  | fuel + 1, comp, input, input_offset, cap, written =>
    match comp.compress_trickle (input.drop input_offset) (cap - written.length) true with
    | none => none
    | some (.error e, _) => some (.error e)
    | some (.ok (consumed, w, finished), comp1) =>
      let written1 := written ++ w
      if finished then some (.ok written1)
      else if written1.length ≥ cap then some (.error .insufficientOutput)
      else compressLoop fuel comp1 input (input_offset + consumed) cap written1

/-- One-shot compress from src/lib.rs. -/
def compress (input : List Nat) (cap : Nat) : Option (Except TrickleError (List Nat)) :=
  compressLoop (input.length + 2) TrickleCompressor.new input 0 cap []

/-- The loop of the one-shot decompress function in src/lib.rs, built on
InflateState::decompress_chunk via TrickleDecompressor::decompress_trickle
(a direct delegation in the source).  Same shape as compressLoop.  Each
iteration either finishes, errors, or fills the remaining capacity and
errors on the next check, so the fuel is never exhausted on the paths the
theorems traverse. -/
def decompressLoop : Nat → InflateState → List Nat → Nat → Nat → List Nat →
    Option (Except TrickleError (List Nat))
  | 0, _, _, _, _, _ => none
  | fuel + 1, st, input, input_offset, cap, written =>
    match st.decompress_chunk (input.drop input_offset) (cap - written.length) with
    | (.error e, _) => some (.error e)
    | (.ok (consumed, w, finished), st1) =>
      let written1 := written ++ w
      if finished then some (.ok written1)
      else if written1.length ≥ cap then some (.error .insufficientOutput)
      else decompressLoop fuel st1 input (input_offset + consumed) cap written1

/-- One-shot decompress from src/lib.rs (TrickleDecompressor::new holds a
fresh InflateState). -/
def decompress (input : List Nat) (cap : Nat) : Option (Except TrickleError (List Nat)) :=
  decompressLoop (input.length + 2) InflateState.new input 0 cap []

/-- Drive one compressor through successive compress_trickle calls, one
per (slice, output capacity) pair, passing finish = true only on the last
call, and concatenate the per-call output bytes.  This is the multi-call
side of the cross-call determinism guarantee. -/
def driveSlices : TrickleCompressor → List (List Nat × Nat) →
    Option (Except TrickleError (List Nat × TrickleCompressor))
  | comp, [] => some (.ok ([], comp))
  | comp, (slice, cap) :: rest =>
    match comp.compress_trickle slice cap rest.isEmpty with
    | none => none
    | some (.error e, _) => some (.error e)
    | some (.ok (_, w, _), comp1) =>
      match driveSlices comp1 rest with
      | none => none
      | some (.error e) => some (.error e)
      | some (.ok (ws, comp2)) => some (.ok (w ++ ws, comp2))

/-- The most recent n elements of a list (the whole list when it is
shorter than n). -/
def lastN (n : Nat) (l : List Nat) : List Nat := l.drop (l.length - n)

/-- Feed a sequence of input chunks through successive
Lz77Encoder::encode calls, keeping only the evolving encoder state. -/
def encodeAll (e : Lz77Encoder) : List (List Nat) → Lz77Encoder
  | [] => e
  | c :: rest => encodeAll (e.encode c).2 rest

/-- Masking with 255 is reduction modulo 256. -/
theorem land_255 (x : Nat) : x &&& 255 = x % 256 := by
  have h := Nat.and_pow_two_sub_one_eq_mod x 8
  norm_num at h
  exact h

/-- The flush loop does nothing when fewer than 8 bits are pending. -/
theorem flushLoopF_lt8 (fuel buf cnt : Nat) (out : List Nat) (h : cnt < 8) :
    flushLoopF fuel buf cnt out = (buf, cnt, out) := by
  cases fuel with
  | zero => rfl
  | succ n =>
    unfold flushLoopF
    rw [if_neg (by omega)]

/-- Unfolding equation of the flush loop at positive fuel. -/
theorem flushLoopF_succ (fuel buf cnt : Nat) (out : List Nat) :
    flushLoopF (fuel + 1) buf cnt out =
      if cnt ≥ 8 then flushLoopF fuel (buf / 256) (cnt - 8) (out ++ [buf % 256])
      else (buf, cnt, out) := rfl

/-- The flush loop on a single whole byte moves it to the output. -/
theorem flushLoop_byte (v : Nat) (out : List Nat) (hv : v < 256) :
    flushLoop v 8 out = (0, 0, out ++ [v]) := by
  show flushLoopF (7 + 1) v 8 out = (0, 0, out ++ [v])
  rw [flushLoopF_succ, if_pos (by omega), Nat.div_eq_of_lt hv, Nat.mod_eq_of_lt hv,
    flushLoopF_lt8 _ _ _ _ (by omega)]

/-- Writing one byte into a byte-aligned writer (empty accumulator)
appends the byte reduced modulo 256 and leaves the writer aligned. -/
theorem write_byte_aligned (out : List Nat) (b : Nat) :
    BitWriter.write_byte ⟨0, 0, out⟩ b = some (.ok (), ⟨0, 0, out ++ [b % 256]⟩) := by
  have hlt : b % 256 < 256 := Nat.mod_lt _ (by norm_num)
  have h1 : u32shl 1 8 = some 256 := by decide
  have hb : b % 2 ^ 32 &&& (256 - 1) = b % 256 := by
    rw [show (256 - 1 : Nat) = 255 from rfl, land_255]
    exact Nat.mod_mod_of_dvd b (by norm_num)
  have h2 : u32shl (b % 2 ^ 32 &&& (256 - 1)) 0 = some (b % 256) := by
    rw [u32shl, if_neg (by norm_num), hb, Nat.shiftLeft_zero]
    rw [Nat.mod_eq_of_lt (lt_trans hlt (by norm_num))]
  rw [BitWriter.write_byte, BitWriter.write_bits, if_neg (by norm_num), h1]
  show (match u32shl (b % 2 ^ 32 &&& (256 - 1)) 0 with
    | none => (none : Option (Except TrickleError Unit × BitWriter))
    | some add =>
      let r := flushLoop (0 ||| add) (0 + 8) out
      some (Except.ok (), (⟨r.1, r.2.1, r.2.2⟩ : BitWriter))) =
    some (Except.ok (), (⟨0, 0, out ++ [b % 256]⟩ : BitWriter))
  rw [h2]
  show some (Except.ok (), (⟨(flushLoop (0 ||| b % 256) (0 + 8) out).1,
      (flushLoop (0 ||| b % 256) (0 + 8) out).2.1,
      (flushLoop (0 ||| b % 256) (0 + 8) out).2.2⟩ : BitWriter)) =
    some (Except.ok (), (⟨0, 0, out ++ [b % 256]⟩ : BitWriter))
  rw [Nat.zero_or, show (0 + 8 : Nat) = 8 from rfl, flushLoop_byte _ _ hlt]

/-- Writing a byte list into a byte-aligned writer appends the bytes
reduced modulo 256, without error and without panic. -/
theorem writeBytesLoop_aligned (data : List Nat) (out : List Nat) :
    writeBytesLoop ⟨0, 0, out⟩ data =
      some (.ok (), ⟨0, 0, out ++ data.map (fun b => b % 256)⟩) := by
  induction data generalizing out with
  | nil => simp [writeBytesLoop]
  | cons b rest ih =>
    rw [writeBytesLoop, write_byte_aligned]
    show writeBytesLoop ⟨0, 0, out ++ [b % 256]⟩ rest = _
    rw [ih]
    simp

/-- BitWriter::write_to_buffer on a fresh writer with enough capacity
copies the data bytes (reduced modulo 256) out and returns the writer to
the fresh state. -/
theorem write_to_buffer_fresh (data : List Nat) (cap : Nat) (h : data.length ≤ cap) :
    BitWriter.new.write_to_buffer data cap =
      some (.ok (data.map (fun b => b % 256)), BitWriter.new) := by
  rw [show BitWriter.new = (⟨0, 0, []⟩ : BitWriter) from rfl]
  rw [BitWriter.write_to_buffer, writeBytesLoop_aligned]
  simp [BitWriter.flush, Nat.not_lt.mpr h]

/-- The Huffman byte stream of a pure literal token list is the literal
bytes themselves. -/
theorem huffmanBytes_literals (input : List Nat) :
    huffmanBytes (input.map Token.literal) = input := by
  induction input with
  | nil => rfl
  | cons b rest ih => simp [huffmanBytes, ih]

/-- Behaviour of compress_chunk on any unfinished state whose bit writer
is fresh and whose output capacity covers the input: the call consumes
the whole input, writes exactly the input bytes (reduced modulo 256, the
identity on genuine u8 data), reports the finish flag, advances both
counters by the input length, and leaves the bit writer fresh again. -/
theorem compress_chunk_spec (s : DeflateState) (input : List Nat) (cap : Nat) (finish : Bool)
    (hf : s.finished = false) (hw : s.bit_writer = BitWriter.new)
    (hcap : input.length ≤ cap) :
    ∃ s2 : DeflateState,
      s.compress_chunk input cap finish =
        some (.ok (input.length, input.map (fun b => b % 256), finish), s2) ∧
      s2.finished = finish ∧ s2.bit_writer = BitWriter.new ∧
      s2.bytes_processed = s.bytes_processed + input.length ∧
      s2.bytes_output = s.bytes_output + input.length := by
  rw [DeflateState.compress_chunk]
  rw [if_neg (by rw [hf]; exact Bool.false_ne_true)]
  simp only [Lz77Encoder.encode, HuffmanCoder.encode, huffmanBytes_literals, hw,
    write_to_buffer_fresh input cap hcap, List.length_map]
  rw [hf]
  cases finish with
  | false => exact ⟨_, rfl, rfl, rfl, rfl, rfl⟩
  | true => exact ⟨_, rfl, rfl, rfl, rfl, rfl⟩

/-- C3: on a fresh compressor, compress_trickle with a zero-size output
buffer and the non-empty input [65] returns the InsufficientOutput
error, as the claim states, but contrary to the claim the failed call
does corrupt the counters: stats().bytes_processed was 0 before the call
and is 1 afterwards, because compress_chunk adds input.len() to
bytes_processed before attempting the output write. -/
theorem c3_failed_call_advances_stats :
    ∃ s2 : DeflateState,
      (DeflateState.new CompressionConfig.default).compress_chunk [65] 0 true =
        some (.error .insufficientOutput, s2) ∧
      (DeflateState.new CompressionConfig.default).stats.bytes_processed = 0 ∧
      s2.stats.bytes_processed = 1 ∧ s2.stats.bytes_output = 0 :=
  ⟨_, rfl, rfl, rfl, rfl⟩

/-- C4: on the 10-byte input of repeated 65 (the byte of the letter A)
under the default configuration, the match finder emits ten Literal
tokens and no Match token, and the one-shot compressed output is exactly
the 10 input bytes, not strictly fewer — the claim fails on the code,
whose LZ77 loop only ever pushes literals. -/
theorem c4_no_match_token_no_size_reduction :
    ((Lz77Encoder.new 32768 258 256).encode (List.replicate 10 65)).1 =
      Except.ok (List.replicate 10 (Token.literal 65)) ∧
    compress (List.replicate 10 65) 20 = some (.ok (List.replicate 10 65)) :=
  ⟨rfl, rfl⟩

/-- C5: on a fresh compressor, empty input with finish = true returns
consumed = 0 and finished = true as the claim states, but the written
output is the empty byte list: no code table and no end-of-unit marker
are emitted, contradicting the claim that the encoding of an empty unit
is not an empty, marker-less stream. -/
theorem c5_empty_unit_writes_no_marker :
    ∃ s2 : DeflateState,
      (DeflateState.new CompressionConfig.default).compress_chunk [] 16 true =
        some (.ok (0, [], true), s2) :=
  ⟨_, rfl⟩

/-- C8: write_bits rejects widths above 32 with InvalidData, but at
width exactly 32 the mask computation 1u32 shifted left by 32 is an
arithmetic overflow (modelled as none): the call panics under debug
assertions instead of succeeding with the value masked to its low 32
bits, so the claim fails at width 32. -/
theorem c8_write_bits_width32_overflow :
    BitWriter.new.write_bits 1 32 = none ∧
    BitWriter.new.write_bits 1 33 = some (.error .invalidData, BitWriter.new) :=
  ⟨rfl, rfl⟩

/-- C6: compress_timed with a time limit of 0 returns the
TimeoutExceeded error at the very first budget check, before any
compress_trickle call, for every compressor state, every input and every
elapsed-time behaviour of the injected clock; the compressor is returned
unchanged, so stats().bytes_processed is unchanged. -/
theorem c6_zero_budget_timeout (comp : TrickleCompressor) (input : List Nat) (cap : Nat)
    (finish : Bool) (elapsed : Nat → Nat) :
    comp.compress_timed input cap finish elapsed 0 =
      some (.error .timeoutExceeded, comp) := by
  show (if elapsed 0 ≥ 0 then some (.error .timeoutExceeded, comp)
    else match comp.compress_trickle input cap finish with
      | none => none
      | some (.ok r, comp1) => some (.ok r, comp1)
      | some (.error .needsMoreWork, comp1) =>
        compressTimedLoop (input.length + 1) comp1 input cap finish elapsed 0 1
      | some (.error e, comp1) => some (.error e, comp1)) =
    some (.error .timeoutExceeded, comp)
  rw [if_pos (Nat.zero_le _)]

/-- C10: whenever compress_chunk returns Ok on a not-yet-finished state,
the reported consumed count is the full input length, for every input,
output capacity and finish flag: the engine never partially consumes
input on a successful call. -/
theorem c10_full_consumption (s : DeflateState) (input : List Nat) (cap : Nat)
    (finish : Bool) (r : Nat × List Nat × Bool) (s2 : DeflateState)
    (hf : s.finished = false)
    (h : s.compress_chunk input cap finish = some (.ok r, s2)) :
    r.1 = input.length := by
  rw [DeflateState.compress_chunk, if_neg (by rw [hf]; exact Bool.false_ne_true)] at h
  simp only [Lz77Encoder.encode, HuffmanCoder.encode] at h
  split at h
  · simp at h
  · simp at h
  · simp only [Option.some_inj, Prod.mk.injEq, Except.ok.injEq] at h
    obtain ⟨h1, -⟩ := h
    rw [← h1]

/-- Witness for c10_full_consumption at a concrete input: a fresh
default compressor consuming the single byte 5. -/
theorem c10_full_consumption_witness :
    (((1 : Nat), ([5] : List Nat), false).1 = ([(5 : Nat)] : List Nat).length) :=
  c10_full_consumption (DeflateState.new CompressionConfig.default) [5] 1 false
    (1, [5], false) _ rfl rfl

/-- C7: once a compress_chunk call with finish = true has returned Ok,
the state is terminal: every later compress_chunk call, for every input,
capacity and finish flag, returns Ok (0, 0 bytes, true) and returns the
session state completely unchanged. -/
theorem c7_finished_terminal (s : DeflateState) (input : List Nat) (cap : Nat)
    (r : Nat × List Nat × Bool) (s2 : DeflateState)
    (h : s.compress_chunk input cap true = some (.ok r, s2)) :
    ∀ (input2 : List Nat) (cap2 : Nat) (finish2 : Bool),
      s2.compress_chunk input2 cap2 finish2 = some (.ok (0, [], true), s2) := by
  have hfin : s2.finished = true := by
    cases hsf : s.finished with
    | true =>
      rw [DeflateState.compress_chunk, if_pos hsf] at h
      simp only [Option.some_inj, Prod.mk.injEq] at h
      rw [← h.2, hsf]
    | false =>
      rw [DeflateState.compress_chunk,
        if_neg (by rw [hsf]; exact Bool.false_ne_true)] at h
      simp only [Lz77Encoder.encode, HuffmanCoder.encode] at h
      split at h
      · simp at h
      · simp at h
      · simp only [Option.some_inj, Prod.mk.injEq, Except.ok.injEq] at h
        rw [← h.2]
        rfl
  intro input2 cap2 finish2
  rw [DeflateState.compress_chunk, if_pos hfin]

/-- Witness for c7_finished_terminal: a fresh default compressor
finishes on empty input, and the finished state is terminal for a later
call with input [7]. -/
theorem c7_finished_terminal_witness :
    ({ DeflateState.new CompressionConfig.default with finished := true }
        : DeflateState).compress_chunk [7] 5 false =
      some (.ok (0, [], true),
        { DeflateState.new CompressionConfig.default with finished := true }) :=
  c7_finished_terminal (DeflateState.new CompressionConfig.default) [] 0 (0, [], true)
    { DeflateState.new CompressionConfig.default with finished := true } rfl [7] 5 false

/-- Length of the most recent n elements. -/
theorem lastN_length (n : Nat) (l : List Nat) : (lastN n l).length = min n l.length := by
  simp only [lastN, List.length_drop]
  omega

/-- Keeping the most recent n elements, appending, and keeping the most
recent n elements again is the same as keeping the most recent n
elements of the whole concatenation. -/
theorem lastN_append_lastN (n : Nat) (a b : List Nat) :
    lastN n (lastN n a ++ b) = lastN n (a ++ b) := by
  rcases le_or_lt n a.length with h | h
  · unfold lastN
    rw [List.drop_append_eq_append_drop, List.drop_append_eq_append_drop, List.drop_drop]
    congr 1
    · congr 1
      simp only [List.length_append, List.length_drop]
      omega
    · congr 1
      simp only [List.length_append, List.length_drop]
      omega
  · unfold lastN
    rw [Nat.sub_eq_zero_of_le (Nat.le_of_lt h), List.drop_zero]

/-- One encode call leaves the window holding exactly the most recent
window_size bytes of the old window followed by the new input. -/
theorem encode_window (e : Lz77Encoder) (input : List Nat) :
    ((e.encode input).2).window = lastN e.window_size (e.window ++ input) := by
  simp only [Lz77Encoder.encode, lastN]
  split
  · rfl
  · rename_i hle
    rw [Nat.sub_eq_zero_of_le (Nat.le_of_not_lt hle), List.drop_zero]

/-- Across any sequence of encode calls, the window holds exactly the
most recent window_size bytes of everything fed in so far. -/
theorem encodeAll_window (ws : Nat) :
    ∀ (chunks : List (List Nat)) (e : Lz77Encoder), e.window_size = ws →
      e.window.length ≤ ws →
      (encodeAll e chunks).window = lastN ws (e.window ++ chunks.flatten) := by
  intro chunks
  induction chunks with
  | nil =>
    intro e hws hlen
    simp only [encodeAll, List.flatten_nil, List.append_nil, lastN]
    rw [Nat.sub_eq_zero_of_le hlen, List.drop_zero]
  | cons c rest ih =>
    intro e hws hlen
    have h1 : ((e.encode c).2).window = lastN ws (e.window ++ c) := by
      rw [encode_window, hws]
    have h2 : ((e.encode c).2).window_size = ws := hws
    have h3 : ((e.encode c).2).window.length ≤ ws := by
      rw [h1, lastN_length]
      exact Nat.min_le_left _ _
    show (encodeAll ((e.encode c).2) rest).window = _
    rw [ih ((e.encode c).2) h2 h3, h1, lastN_append_lastN]
    simp [List.append_assoc]

/-- C9: for every configuration and every way of chunking the input
stream into encode calls, the sliding window afterwards holds exactly
the most recent min(total bytes seen, window_size) input bytes in
order, so its length never exceeds the configured window_size and the
evicted bytes are always the oldest ones. -/
theorem c9_window_bound (ws ml mc : Nat) (chunks : List (List Nat)) :
    (encodeAll (Lz77Encoder.new ws ml mc) chunks).window = lastN ws chunks.flatten ∧
    (encodeAll (Lz77Encoder.new ws ml mc) chunks).window.length =
      min ws chunks.flatten.length ∧
    (encodeAll (Lz77Encoder.new ws ml mc) chunks).window.length ≤ ws := by
  have h := encodeAll_window ws chunks (Lz77Encoder.new ws ml mc) rfl (by simp [Lz77Encoder.new])
  rw [show (Lz77Encoder.new ws ml mc).window = ([] : List Nat) from rfl, List.nil_append] at h
  refine ⟨h, ?_, ?_⟩
  · rw [h, lastN_length]
  · rw [h, lastN_length]
    exact Nat.min_le_left _ _

/-- Unfolding equation for driveSlices on a non-empty slice list. -/
theorem driveSlices_cons (comp : TrickleCompressor) (slice : List Nat) (cap : Nat)
    (rest : List (List Nat × Nat)) :
    driveSlices comp ((slice, cap) :: rest) =
      match comp.compress_trickle slice cap rest.isEmpty with
      | none => none
      | some (.error e, _) => some (.error e)
      | some (.ok (_, w, _), comp1) =>
        match driveSlices comp1 rest with
        | none => none
        | some (.error e) => some (.error e)
        | some (.ok (ws, comp2)) => some (.ok (w ++ ws, comp2)) := rfl

/-- Driving any compressor whose state is unfinished and whose bit
writer is fresh through a list of (slice, sufficient capacity) calls
succeeds and outputs the concatenation of the slices, byte for byte
(reduced modulo 256). -/
theorem driveSlices_spec :
    ∀ (pairs : List (List Nat × Nat)) (comp : TrickleCompressor),
      comp.state.finished = false → comp.state.bit_writer = BitWriter.new →
      (∀ p ∈ pairs, p.1.length ≤ p.2) →
      ∃ comp2, driveSlices comp pairs =
        some (.ok ((pairs.map Prod.fst).flatten.map (fun b => b % 256), comp2)) := by
  intro pairs
  induction pairs with
  | nil =>
    intro comp _ _ _
    exact ⟨comp, rfl⟩
  | cons p rest ih =>
    intro comp hf hw hcap
    obtain ⟨slice, cap⟩ := p
    have hsl : slice.length ≤ cap := hcap (slice, cap) (List.mem_cons_self _ _)
    cases rest with
    | nil =>
      obtain ⟨s2, hcall, -, -, -, -⟩ :=
        compress_chunk_spec comp.state slice cap true hf hw hsl
      refine ⟨{ comp with state := s2 }, ?_⟩
      rw [driveSlices_cons, TrickleCompressor.compress_trickle, List.isEmpty_nil, hcall]
      simp [driveSlices]
    | cons q rs =>
      obtain ⟨s2, hcall, hfin, hbw, -, -⟩ :=
        compress_chunk_spec comp.state slice cap false hf hw hsl
      obtain ⟨comp2, hrest⟩ :=
        ih { comp with state := s2 } hfin hbw (fun p hp => hcap p (List.mem_cons_of_mem _ hp))
      refine ⟨comp2, ?_⟩
      rw [driveSlices_cons, TrickleCompressor.compress_trickle, List.isEmpty_cons, hcall]
      show (match driveSlices { comp with state := s2 } (q :: rs) with
        | none => (none : Option (Except TrickleError (List Nat × TrickleCompressor)))
        | some (.error e) => some (.error e)
        | some (.ok (ws, comp2)) =>
          some (.ok (slice.map (fun b => b % 256) ++ ws, comp2))) = _
      rw [hrest]
      simp [List.map_append]

/-- C1: for every way of splitting an input into consecutive slices,
driving a fresh default compressor with one compress_trickle call per
slice (each with a sufficiently large output buffer, finish = true only
on the last call) produces, as the concatenation of the per-call
outputs, exactly the byte sequence a single compress_trickle call on the
whole input with finish = true produces on a fresh compressor: both
sides equal the input bytes reduced modulo 256 (the identity on genuine
u8 data). -/
theorem c1_split_determinism (pairs : List (List Nat × Nat)) (capW : Nat)
    (hcap : ∀ p ∈ pairs, p.1.length ≤ p.2)
    (hW : (pairs.map Prod.fst).flatten.length ≤ capW) :
    ∃ (multi single : TrickleCompressor),
      driveSlices TrickleCompressor.new pairs =
        some (.ok ((pairs.map Prod.fst).flatten.map (fun b => b % 256), multi)) ∧
      TrickleCompressor.new.compress_trickle (pairs.map Prod.fst).flatten capW true =
        some (.ok ((pairs.map Prod.fst).flatten.length,
          (pairs.map Prod.fst).flatten.map (fun b => b % 256), true), single) := by
  obtain ⟨multi, h1⟩ := driveSlices_spec pairs TrickleCompressor.new rfl rfl hcap
  obtain ⟨s2, hcall, -, -, -, -⟩ :=
    compress_chunk_spec TrickleCompressor.new.state (pairs.map Prod.fst).flatten capW true
      rfl rfl hW
  refine ⟨multi, { TrickleCompressor.new with state := s2 }, h1, ?_⟩
  rw [TrickleCompressor.compress_trickle, hcall]

/-- Witness for c1_split_determinism: the input [72, 73, 74] split into
the slices [72] and [73, 74], with per-call capacities 1 and 2 and
whole-input capacity 3. -/
theorem c1_split_determinism_witness :
    ∃ (multi single : TrickleCompressor),
      driveSlices TrickleCompressor.new [([72], 1), ([73, 74], 2)] =
        some (.ok ((([([72], 1), ([73, 74], 2)].map Prod.fst).flatten.map
          (fun b => b % 256)), multi)) ∧
      TrickleCompressor.new.compress_trickle
          ([([72], 1), ([73, 74], 2)].map Prod.fst).flatten 3 true =
        some (.ok ((([([72], 1), ([73, 74], 2)].map Prod.fst).flatten.length,
          ([([72], 1), ([73, 74], 2)].map Prod.fst).flatten.map (fun b => b % 256),
          true)), single) :=
  c1_split_determinism [([72], 1), ([73, 74], 2)] 3 (by decide) (by decide)

/-- Unfolding equation for the one-shot compress loop at positive fuel. -/
theorem compressLoop_succ (fuel : Nat) (comp : TrickleCompressor) (input : List Nat)
    (input_offset cap : Nat) (written : List Nat) :
    compressLoop (fuel + 1) comp input input_offset cap written =
      match comp.compress_trickle (input.drop input_offset) (cap - written.length) true with
      | none => none
      | some (.error e, _) => some (.error e)
      | some (.ok (consumed, w, finished), comp1) =>
        let written1 := written ++ w
        if finished then some (.ok written1)
        else if written1.length ≥ cap then some (.error .insufficientOutput)
        else compressLoop fuel comp1 input (input_offset + consumed) cap written1 := rfl

/-- Unfolding equation for the one-shot decompress loop at positive
fuel. -/
theorem decompressLoop_succ (fuel : Nat) (st : InflateState) (input : List Nat)
    (input_offset cap : Nat) (written : List Nat) :
    decompressLoop (fuel + 1) st input input_offset cap written =
      match st.decompress_chunk (input.drop input_offset) (cap - written.length) with
      | (.error e, _) => some (.error e)
      | (.ok (consumed, w, finished), st1) =>
        let written1 := written ++ w
        if finished then some (.ok written1)
        else if written1.length ≥ cap then some (.error .insufficientOutput)
        else decompressLoop fuel st1 input (input_offset + consumed) cap written1 := rfl

/-- One-shot compress with enough output capacity succeeds in a single
loop iteration and outputs the input bytes reduced modulo 256. -/
theorem compress_eq (input : List Nat) (cap : Nat) (h : input.length ≤ cap) :
    compress input cap = some (.ok (input.map (fun b => b % 256))) := by
  obtain ⟨s2, hcall, -, -, -, -⟩ :=
    compress_chunk_spec TrickleCompressor.new.state input cap true rfl rfl h
  rw [compress, show input.length + 2 = input.length + 1 + 1 from rfl, compressLoop_succ]
  simp only [TrickleCompressor.compress_trickle, List.drop_zero, List.length_nil,
    Nat.sub_zero, hcall]
  simp

/-- One-shot decompress with enough output capacity copies the input in
a single loop iteration. -/
theorem decompress_eq (input : List Nat) (cap : Nat) (h : input.length ≤ cap) :
    decompress input cap = some (.ok input) := by
  cases input with
  | nil => rfl
  | cons a as =>
    rw [decompress, show (a :: as).length + 2 = (a :: as).length + 1 + 1 from rfl,
      decompressLoop_succ]
    simp only [List.drop_zero, List.length_nil, Nat.sub_zero, InflateState.decompress_chunk,
      List.isEmpty_cons, Bool.false_eq_true, if_false, Nat.min_eq_left h, List.take_length]
    simp

/-- C2: for every byte sequence and output buffers large enough for each
step, decompress applied to the bytes produced by compress yields back
exactly the input; the written counts are the lengths of the returned
byte lists, so decompress reports exactly the input length. -/
theorem c2_roundtrip (input : List Nat) (cap1 cap2 : Nat) (hbytes : ∀ b ∈ input, b < 256)
    (h1 : input.length ≤ cap1) (h2 : input.length ≤ cap2) :
    ∃ c : List Nat, compress input cap1 = some (.ok c) ∧
      decompress c cap2 = some (.ok input) := by
  have hmap : input.map (fun b => b % 256) = input := by
    rw [show input = input.map id by simp]
    rw [List.map_map]
    exact List.map_congr_left (fun b hb => Nat.mod_eq_of_lt (hbytes b (by simpa using hb)))
  refine ⟨input, ?_, decompress_eq input cap2 h2⟩
  rw [compress_eq input cap1 h1, hmap]

/-- Witness for c2_roundtrip: the two-byte input [72, 105] with output
capacities 4 and 4. -/
theorem c2_roundtrip_witness :
    ∃ c : List Nat, compress [72, 105] 4 = some (.ok c) ∧
      decompress c 4 = some (.ok [72, 105]) :=
  c2_roundtrip [72, 105] 4 4 (by decide) (by decide) (by decide)

end TrickleZip
